import Mathlib

/-!
Verification development for the x11bench capture / comparison core.

The C++ sources (`src/image.hpp`, `src/compare.cpp`, `src/capture.cpp`) are
shallowly embedded below: `uint8_t` channel values become `Fin 256`, C++ `int`
becomes `ℤ`, C++ `double` statistics become `ℚ` (every value the comparison
code stores in a double is an integer or a quotient of small integers, so the
rational model is exact), and the per-pixel double loops become order
independent `Finset` reductions over the coordinate grid.
-/

namespace X11Bench

/-- RGBA pixel, 4 bytes (`struct Pixel` in `image.hpp`). -/
structure Pixel where
  r : Fin 256
  g : Fin 256
  b : Fin 256
  a : Fin 256
deriving DecidableEq, Repr

/-- Canonical RGBA8 image (`class Image` in `image.hpp`).  The flat
`data_` byte buffer (invariant: length = `width*height*4`) is represented by
the pixel lookup function `pix`; `get_pixel` reads exactly the 4 bytes at
offset `(y*width + x) * 4`, which is `pix x y` here. -/
structure Image where
  width : Nat
  height : Nat
  pix : Nat → Nat → Pixel

/-- `Image::empty() const { return data_.empty(); }` — with the buffer
invariant `data_.size() = width*height*4`, the buffer is empty exactly when
`width * height = 0`. -/
def Image.empty (img : Image) : Bool := img.width * img.height == 0

/-- An all-zero image of the given dimensions, as produced by the C++
constructor `Image(width, height)` (the buffer is value-initialized to 0). -/
def Image.blank (w h : Nat) : Image :=
  { width := w, height := h, pix := fun _ _ => ⟨0, 0, 0, 0⟩ }

/-- `struct CompareResult` (`compare.hpp`).  The diagnostic `message` strings
are modelled without their numeric payloads (the payloads are `double`
formatting, irrelevant to every property below). -/
structure CompareResult where
  match_ : Bool
  different_pixels : Nat
  total_pixels : Nat
  difference_percent : ℚ
  max_channel_diff : ℚ
  avg_channel_diff : ℚ
  message : String
deriving DecidableEq, Repr

/-- `Compare::channel_diff`: `std::abs(int(a) - int(b))`.  The value is
non-negative, so it is returned as a `Nat`. -/
def Compare.channel_diff (a b : Fin 256) : Nat := ((a : Int) - (b : Int)).natAbs

/-- `std::max({dr, dg, db, da})` applied to the four channel differences. -/
def Compare.pixel_max_diff (p1 p2 : Pixel) : Nat :=
  max (Compare.channel_diff p1.r p2.r)
    (max (Compare.channel_diff p1.g p2.g)
      (max (Compare.channel_diff p1.b p2.b) (Compare.channel_diff p1.a p2.a)))

/-- `dr + dg + db + da`, the per-pixel contribution to `total_diff`. -/
def Compare.pixel_sum_diff (p1 p2 : Pixel) : Nat :=
  Compare.channel_diff p1.r p2.r + Compare.channel_diff p1.g p2.g +
    Compare.channel_diff p1.b p2.b + Compare.channel_diff p1.a p2.a

/-- The coordinate grid `{(x, y) | x < w, y < h}` walked by the nested
`for (y) for (x)` loops. -/
def coords (w h : Nat) : Finset (Nat × Nat) := Finset.range w ×ˢ Finset.range h

/-- `Compare::fuzzy` (`compare.cpp`).  The three branches mirror the source:
dimension mismatch, empty image(s), and the main per-pixel loop.  The loop is
an order-independent reduction, embedded as `Finset` count / sup / sum over
the coordinate grid. -/
def Compare.fuzzy (img1 img2 : Image) (tolerance : Int) : CompareResult :=
  if img1.width ≠ img2.width ∨ img1.height ≠ img2.height then
    { match_ := false, different_pixels := 0, total_pixels := 0,
      difference_percent := 0, max_channel_diff := 0, avg_channel_diff := 0,
      message := "Dimension mismatch" }
  else if img1.empty || img2.empty then
    { match_ := img1.empty && img2.empty, different_pixels := 0, total_pixels := 0,
      difference_percent := 0, max_channel_diff := 0, avg_channel_diff := 0,
      message := if img1.empty && img2.empty then "Both images empty" else "One image empty" }
  else
    let total_pixels := img1.width * img1.height
    let cs := coords img1.width img1.height
    let different_pixels := (cs.filter fun c =>
      tolerance < (Compare.pixel_max_diff (img1.pix c.1 c.2) (img2.pix c.1 c.2) : Int)).card
    let max_channel_diff : Nat :=
      cs.sup fun c => Compare.pixel_max_diff (img1.pix c.1 c.2) (img2.pix c.1 c.2)
    let total_diff : Nat :=
      ∑ c ∈ cs, Compare.pixel_sum_diff (img1.pix c.1 c.2) (img2.pix c.1 c.2)
    let channel_count := 4 * total_pixels
    { match_ := different_pixels == 0,
      different_pixels := different_pixels,
      total_pixels := total_pixels,
      difference_percent :=
        if 0 < total_pixels then 100 * (different_pixels : ℚ) / (total_pixels : ℚ) else 0,
      max_channel_diff := (max_channel_diff : ℚ),
      avg_channel_diff :=
        if 0 < channel_count then (total_diff : ℚ) / (channel_count : ℚ) else 0,
      message :=
        if different_pixels == 0 then
          if 0 < tolerance then "Images match (within tolerance)" else "Images match"
        else "pixels differ" }

/-- `Compare::exact`: `fuzzy(img1, img2, 0)`. -/
def Compare.exact (img1 img2 : Image) : CompareResult := Compare.fuzzy img1 img2 0

/-- `static_cast<uint8_t>` of a non-negative value: reduction mod `2^8`. -/
def u8 (n : Nat) : Fin 256 := ⟨n % 256, Nat.mod_lt n (by decide)⟩

/-- `Compare::generate_diff` (`compare.cpp`).  A `max(w1,w2) × max(h1,h2)`
canvas, except that the source returns the default-constructed `Image()`
(which is 0×0) as soon as either maximum is 0.  Coordinates beyond the canvas
never arise in the source (the loops are bounded by the canvas), so the pixel
function is simply total here. -/
def Compare.generate_diff (img1 img2 : Image) (tolerance : Int) : Image :=
  let width := max img1.width img2.width
  let height := max img1.height img2.height
  if width = 0 ∨ height = 0 then
    { width := 0, height := 0, pix := fun _ _ => ⟨0, 0, 0, 0⟩ }
  else
    { width := width, height := height,
      pix := fun x y =>
        let in_img1 := x < img1.width ∧ y < img1.height
        let in_img2 := x < img2.width ∧ y < img2.height
        if ¬in_img1 ∧ ¬in_img2 then ⟨0, 0, 0, 255⟩
        else if ¬in_img1 then ⟨0, 255, 0, 255⟩
        else if ¬in_img2 then ⟨0, 0, 255, 255⟩
        else
          let p1 := img1.pix x y
          let p2 := img2.pix x y
          let max_diff := Compare.pixel_max_diff p1 p2
          if tolerance < (max_diff : Int) then
            let intensity := min 255 (max_diff * 2)
            ⟨255, u8 (255 - intensity), u8 (255 - intensity), 255⟩
          else
            ⟨u8 ((p1.r : Nat) / 2), u8 ((p1.g : Nat) / 2), u8 ((p1.b : Nat) / 2), 255⟩ }

/-- `Compare::fuzzy_percent` (`compare.cpp`): run `fuzzy` at tolerance 255,
override `match` with the percentage threshold, and rewrite the message when
the override accepted a non-zero number of differing pixels. -/
def Compare.fuzzy_percent (img1 img2 : Image) (max_diff_percent : ℚ) : CompareResult :=
  let result := Compare.fuzzy img1 img2 255
  let result2 :=
    { result with match_ := decide (result.difference_percent ≤ max_diff_percent) }
  if result2.match_ && decide (0 < result2.different_pixels) then
    { result2 with message := "pixels differ - within threshold" }
  else result2

/-! ### Basic facts about the comparison engine -/

theorem channel_diff_le (a b : Fin 256) : Compare.channel_diff a b ≤ 255 := by
  have ha := a.isLt
  have hb := b.isLt
  unfold Compare.channel_diff
  omega

theorem pixel_max_diff_le (p1 p2 : Pixel) : Compare.pixel_max_diff p1 p2 ≤ 255 := by
  unfold Compare.pixel_max_diff
  have h1 := channel_diff_le p1.r p2.r
  have h2 := channel_diff_le p1.g p2.g
  have h3 := channel_diff_le p1.b p2.b
  have h4 := channel_diff_le p1.a p2.a
  omega

/-- `Compare::fuzzy` on dimension-matched, non-empty inputs: the result of
the main per-pixel loop, with the positivity guards discharged. -/
theorem fuzzy_of_valid (a b : Image) (t : Int) (hw : a.width = b.width)
    (hh : a.height = b.height) (hnz : 0 < a.width * a.height) :
    Compare.fuzzy a b t =
      { match_ := ((coords a.width a.height).filter fun c =>
            t < (Compare.pixel_max_diff (a.pix c.1 c.2) (b.pix c.1 c.2) : Int)).card == 0,
        different_pixels := ((coords a.width a.height).filter fun c =>
            t < (Compare.pixel_max_diff (a.pix c.1 c.2) (b.pix c.1 c.2) : Int)).card,
        total_pixels := a.width * a.height,
        difference_percent := 100 * ((((coords a.width a.height).filter fun c =>
            t < (Compare.pixel_max_diff (a.pix c.1 c.2) (b.pix c.1 c.2) : Int)).card : ℕ) : ℚ) /
          ((a.width * a.height : ℕ) : ℚ),
        max_channel_diff := ((((coords a.width a.height).sup fun c =>
            Compare.pixel_max_diff (a.pix c.1 c.2) (b.pix c.1 c.2)) : ℕ) : ℚ),
        avg_channel_diff := ((∑ c ∈ coords a.width a.height,
            Compare.pixel_sum_diff (a.pix c.1 c.2) (b.pix c.1 c.2) : ℕ) : ℚ) /
          ((4 * (a.width * a.height) : ℕ) : ℚ),
        message := if (((coords a.width a.height).filter fun c =>
              t < (Compare.pixel_max_diff (a.pix c.1 c.2) (b.pix c.1 c.2) : Int)).card == 0) then
            (if 0 < t then "Images match (within tolerance)" else "Images match")
          else "pixels differ" } := by
  have h1 : ¬(a.width ≠ b.width ∨ a.height ≠ b.height) := by
    push_neg
    exact ⟨hw, hh⟩
  have he1 : a.empty = false := by
    simp only [Image.empty, beq_eq_false_iff_ne, ne_eq]
    omega
  have he2 : b.empty = false := by
    simp only [Image.empty, beq_eq_false_iff_ne, ne_eq]
    rw [← hw, ← hh]
    omega
  unfold Compare.fuzzy
  rw [if_neg h1, he1, he2]
  have h4 : 0 < 4 * (a.width * a.height) := by omega
  simp only [Bool.or_self, Bool.false_eq_true, if_false, if_pos hnz, if_pos h4]

/-- `Compare::fuzzy` on a dimension mismatch: the early-return record. -/
theorem fuzzy_of_mismatch (a b : Image) (t : Int)
    (h : a.width ≠ b.width ∨ a.height ≠ b.height) :
    Compare.fuzzy a b t =
      { match_ := false, different_pixels := 0, total_pixels := 0,
        difference_percent := 0, max_channel_diff := 0, avg_channel_diff := 0,
        message := "Dimension mismatch" } := by
  unfold Compare.fuzzy
  rw [if_pos h]

/-- At tolerance 255 no pixel can count as different: every channel
difference of two bytes is at most 255, never strictly above it.  Hence the
percentage is 0 in every branch of `fuzzy`. -/
theorem fuzzy_255_stats (a b : Image) :
    (Compare.fuzzy a b 255).different_pixels = 0 ∧
      (Compare.fuzzy a b 255).difference_percent = 0 := by
  by_cases h1 : a.width ≠ b.width ∨ a.height ≠ b.height
  · rw [fuzzy_of_mismatch a b 255 h1]
    exact ⟨rfl, rfl⟩
  · by_cases h2 : (a.empty || b.empty) = true
    · unfold Compare.fuzzy
      rw [if_neg h1, if_pos h2]
      exact ⟨rfl, rfl⟩
    · rw [not_or, not_ne_iff, not_ne_iff] at h1
      obtain ⟨hw, hh⟩ := h1
      have hnz : 0 < a.width * a.height := by
        rcases Nat.eq_zero_or_pos (a.width * a.height) with h | h
        · exact absurd (by simp [Image.empty, h]) h2
        · exact h
      rw [fuzzy_of_valid a b 255 hw hh hnz]
      have hempty : ((coords a.width a.height).filter fun c =>
          (255 : Int) < (Compare.pixel_max_diff (a.pix c.1 c.2) (b.pix c.1 c.2) : Int)) = ∅ := by
        apply Finset.filter_eq_empty_iff.mpr
        intro c _
        have := pixel_max_diff_le (a.pix c.1 c.2) (b.pix c.1 c.2)
        omega
      rw [hempty]
      simp

/-! ### Pixel format normalizer (`capture.cpp`) -/

/-- The shift-finding loop of `extract_channel`:
`while (((mask >> shift) & 1UL) == 0UL && shift < 64) shift++;`.
The loop runs at most 64 times, so fuel 64 reproduces it exactly. -/
def find_shift_go (mask : Nat) : Nat → Nat → Nat
  | 0, shift => shift
  | fuel + 1, shift =>
    if (mask >>> shift) % 2 = 0 ∧ shift < 64 then find_shift_go mask fuel (shift + 1)
    else shift

/-- Index of the lowest set bit of `mask` (64 when no bit below 64 is set). -/
def find_shift (mask : Nat) : Nat := find_shift_go mask 64 0

/-- The popcount loop of `extract_channel`:
`while (tmp) { bits += (tmp & 1UL); tmp >>= 1; }`.
The argument is an `unsigned long`, i.e. below `2^64`, so fuel 64 suffices. -/
def popcount_go : Nat → Nat → Nat
  | 0, _ => 0
  | fuel + 1, n => if n = 0 then 0 else n % 2 + popcount_go fuel (n / 2)

/-- Population count of a 64-bit value. -/
def popcount (n : Nat) : Nat := popcount_go 64 n

/-- `extract_channel` (`capture.cpp`): shift the masked bits down and rescale
linearly from `[0, shifted_mask]` to `[0, 255]`.  The `double` arithmetic of
the source (`value * 255.0 / max_val`, then `lround(min(255.0, ·))`) is exact
over `ℚ` for every `unsigned long` channel value that fits a double; `lround`
on a non-negative argument is `round`. -/
def extract_channel (pixel mask : Nat) : Nat :=
  if mask = 0 then 0
  else
    let shift := find_shift mask
    let shifted_mask := mask >>> shift
    let bits := popcount shifted_mask
    if bits = 0 then 0
    else
      let value := (pixel &&& mask) >>> shift
      let max_val : ℚ := (shifted_mask : ℚ)
      let normalized : ℚ := if 0 < max_val then (value : ℚ) * 255 / max_val else 0
      (round (min 255 normalized)).toNat

/-- `lround(min(255.0, a/m))` over the exact rationals, computed in integer
arithmetic: for non-negative arguments `lround` is `⌊x + 1/2⌋`, and
`⌊a/m + 1/2⌋ = (2a + m) / (2m)` in floor division. -/
theorem round_min_255_toNat (a m : Nat) (hm : 0 < m) :
    (round (min 255 ((a : ℚ) / (m : ℚ)))).toNat = min 255 ((2 * a + m) / (2 * m)) := by
  have hm' : (0 : ℚ) < (m : ℚ) := by exact_mod_cast hm
  rcases le_total ((a : ℚ) / (m : ℚ)) 255 with hq | hq
  · rw [min_eq_right hq, round_eq, Int.floor_toNat]
    have key : (a : ℚ) / (m : ℚ) + 1 / 2 = ((2 * a + m : ℕ) : ℚ) / ((2 * m : ℕ) : ℚ) := by
      push_cast
      field_simp
      ring
    rw [key, Nat.floor_div_nat, Nat.floor_natCast]
    have ha : a ≤ 255 * m := by exact_mod_cast (div_le_iff₀ hm').mp hq
    have hle : (2 * a + m) / (2 * m) ≤ 255 := by
      have h2m : 0 < 2 * m := by omega
      have := (Nat.div_lt_iff_lt_mul h2m).mpr
        (show 2 * a + m < 256 * (2 * m) by omega)
      omega
    exact (min_eq_right hle).symm
  · rw [min_eq_left hq]
    have ha : 255 * m ≤ a := by exact_mod_cast (le_div_iff₀ hm').mp hq
    have hge : 255 ≤ (2 * a + m) / (2 * m) := by
      rw [Nat.le_div_iff_mul_le (by omega : 0 < 2 * m)]
      omega
    have hr : round (255 : ℚ) = 255 := by norm_num
    rw [hr, min_eq_left hge]
    rfl

/-- `extract_channel`, rewritten into executable natural-number arithmetic
(the form `decide` can evaluate). -/
theorem extract_channel_eval (pixel mask : Nat) :
    extract_channel pixel mask =
      if mask = 0 then 0
      else if popcount (mask >>> find_shift mask) = 0 then 0
      else if 0 < mask >>> find_shift mask then
        min 255 ((2 * (((pixel &&& mask) >>> find_shift mask) * 255) +
            mask >>> find_shift mask) / (2 * (mask >>> find_shift mask)))
      else 0 := by
  unfold extract_channel
  dsimp only
  simp only [Nat.cast_pos]
  split_ifs with h1 h2 h3
  · rfl
  · rfl
  · have hcast : ((((pixel &&& mask) >>> find_shift mask : ℕ)) : ℚ) * 255 =
        (((((pixel &&& mask) >>> find_shift mask) * 255 : ℕ)) : ℚ) := by push_cast; ring
    rw [hcast, round_min_255_toNat _ _ h3]
  · simp

/-- 64-bit `unsigned long` complement `~m` (restricted to the 64-bit width
of the C++ type). -/
def ulnot (m : Nat) : Nat := (2 ^ 64 - 1) ^^^ (m &&& (2 ^ 64 - 1))

/-- The fields of the `XImage` that `Capture::ximage_to_image` reads.
`getPixel` is `XGetPixel`, delivering the packed pixel value at a coordinate. -/
structure XImageDesc where
  width : Nat
  height : Nat
  bits_per_pixel : Nat
  depth : Nat
  red_mask : Nat
  green_mask : Nat
  blue_mask : Nat
  getPixel : Nat → Nat → Nat

/-- The alpha-mask computation at the head of `Capture::ximage_to_image`:
only a drawable depth above 24 gets an alpha mask, namely the non-RGB bits
within the `bits_per_pixel`-wide pixel. -/
def Capture.alpha_mask_of (x : XImageDesc) : Nat :=
  if 24 < x.depth then
    let rgb_mask := x.red_mask ||| x.green_mask ||| x.blue_mask
    let pixel_mask :=
      if 64 ≤ x.bits_per_pixel then 2 ^ 64 - 1 else 2 ^ x.bits_per_pixel - 1
    pixel_mask &&& ulnot rgb_mask
  else 0

/-- `Capture::ximage_to_image` (`capture.cpp`): per-pixel channel extraction,
opaque alpha when no alpha mask exists, and the zero-alpha → opaque override. -/
def Capture.ximage_to_image (x : XImageDesc) : Image :=
  let alpha_mask := Capture.alpha_mask_of x
  { width := x.width, height := x.height,
    pix := fun px py =>
      let pixel := x.getPixel px py
      let r := extract_channel pixel x.red_mask
      let g := extract_channel pixel x.green_mask
      let b := extract_channel pixel x.blue_mask
      let a0 := if alpha_mask ≠ 0 then extract_channel pixel alpha_mask else 255
      let a := if alpha_mask ≠ 0 ∧ a0 = 0 then 255 else a0
      ⟨u8 r, u8 g, u8 b, u8 a⟩ }

/-! ### Canonical image persistence (`Image::save_png` / `Image::load_png`)

The repository hands the raw `data_` rows to libpng with `PNG_COLOR_TYPE_RGBA`,
bit depth 8 and no interlacing, and reads them back the same way (for an
RGBA8 stream none of the `png_set_*` conversions in `load_png` applies).  The
codec itself (libpng/zlib) is outside the repository; per its contract and
§6 of the spec it is a lossless container, modelled here as the decoded byte
rows it round-trips. -/

/-- The persisted PNG, at the level of its decoded content: the IHDR
dimensions and the byte rows handed to `png_write_image`
(`row_pointers[y] = data_.data() + y * width_ * 4`). -/
structure PNGData where
  width : Nat
  height : Nat
  rows : Nat → Nat → Nat

/-- `Image::save_png`, successful path: write the RGBA8 rows of `data_`
byte-for-byte (byte `j` of row `y` is channel `j % 4` of pixel `j / 4`). -/
def Image.save_png (img : Image) : PNGData :=
  { width := img.width, height := img.height,
    rows := fun y j =>
      let p := img.pix (j / 4) y
      if j % 4 = 0 then (p.r : Nat)
      else if j % 4 = 1 then (p.g : Nat)
      else if j % 4 = 2 then (p.b : Nat)
      else (p.a : Nat) }

/-- `Image::load_png`, successful path on an RGBA8 stream: take the
dimensions from the header and the pixel bytes from the rows. -/
def Image.load_png (f : PNGData) : Image :=
  { width := f.width, height := f.height,
    pix := fun x y =>
      ⟨u8 (f.rows y (4 * x)), u8 (f.rows y (4 * x + 1)),
       u8 (f.rows y (4 * x + 2)), u8 (f.rows y (4 * x + 3))⟩ }

/-- What `load_png` finds at a path: no readable file (`fopen` returns null),
a stream libpng rejects (the `setjmp(png_jmpbuf(png))` error path), or a
well-formed PNG. -/
inductive FileContent where
  | absent : FileContent
  | corrupt : FileContent
  | png : PNGData → FileContent

/-- The observable outcome of `Image::load_png` on each kind of path content:
the C++ function returns `bool`, i.e. `none` (false) on both failure paths
and the decoded image (true) on success. -/
def Image.load_png_run : FileContent → Option Image
  | FileContent.absent => none
  | FileContent.corrupt => none
  | FileContent.png f => some (Image.load_png f)

/-- The observable outcome of `Image::save_png`: `none` (false) when the
path is unwritable (`fopen` fails) and the written file otherwise. -/
def Image.save_png_run (writable : Bool) (img : Image) : Option PNGData :=
  if writable then some img.save_png else none

/-! ### Claim theorems -/

/-- Claim C7: on a dimension mismatch `fuzzy` returns `match = false` with a
descriptive message and performs no per-pixel computation
(`different_pixels` and `total_pixels` stay 0); when the dimensions agree and
either image is empty, `match` holds iff both are empty; in particular
`fuzzy(Image(0,0), Image(0,0), t).match = true` for every tolerance.  Neither
case escapes the `CompareResult` (the embedded `fuzzy` is a total function). -/
theorem C7_fuzzy_mismatch_and_empty (a b : Image) (t : Int) :
    (a.width ≠ b.width ∨ a.height ≠ b.height →
      (Compare.fuzzy a b t).match_ = false ∧
      (Compare.fuzzy a b t).different_pixels = 0 ∧
      (Compare.fuzzy a b t).total_pixels = 0 ∧
      (Compare.fuzzy a b t).message ≠ "")
    ∧ (a.width = b.width → a.height = b.height → (a.empty = true ∨ b.empty = true) →
      ((Compare.fuzzy a b t).match_ = true ↔ (a.empty = true ∧ b.empty = true)))
    ∧ (Compare.fuzzy (Image.blank 0 0) (Image.blank 0 0) t).match_ = true := by
  refine ⟨?_, ?_, ?_⟩
  · intro h
    rw [fuzzy_of_mismatch a b t h]
    refine ⟨rfl, rfl, rfl, ?_⟩
    decide
  · intro hw hh hemp
    have h1 : ¬(a.width ≠ b.width ∨ a.height ≠ b.height) := by
      push_neg
      exact ⟨hw, hh⟩
    have h2 : (a.empty || b.empty) = true := by
      rcases hemp with h | h <;> simp [h]
    unfold Compare.fuzzy
    rw [if_neg h1, if_pos h2]
    simp
  · have h1 : ¬((Image.blank 0 0).width ≠ (Image.blank 0 0).width ∨
        (Image.blank 0 0).height ≠ (Image.blank 0 0).height) := by simp
    have h2 : ((Image.blank 0 0).empty || (Image.blank 0 0).empty) = true := by decide
    unfold Compare.fuzzy
    rw [if_neg h1, if_pos h2]
    decide

/-- Witness for C7 at concrete inputs: a 1×1 vs 2×1 mismatch fails, and two
0×0 images match at tolerance 7. -/
theorem C7_fuzzy_mismatch_and_empty_witness :
    (Compare.fuzzy (Image.blank 1 1) (Image.blank 2 1) 0).match_ = false ∧
      (Compare.fuzzy (Image.blank 0 0) (Image.blank 0 0) 7).match_ = true :=
  ⟨((C7_fuzzy_mismatch_and_empty (Image.blank 1 1) (Image.blank 2 1) 0).1
      (Or.inl (by decide))).1,
   (C7_fuzzy_mismatch_and_empty (Image.blank 0 0) (Image.blank 0 0) 7).2.2⟩

/-- Claim C3: `fuzzy_percent(a, b, p).match` is true for every pair of images
(equal-sized or not, identical or not) and every `p ≥ 0`: the tolerance-255
inner run never counts a pixel as different (a byte-channel difference cannot
strictly exceed 255), and on a dimension mismatch `difference_percent` stays
0 before `match` is overridden with `0 ≤ p`. -/
theorem C3_fuzzy_percent_always_match (a b : Image) (p : ℚ) (hp : 0 ≤ p) :
    (Compare.fuzzy_percent a b p).match_ = true := by
  obtain ⟨hD, hP⟩ := fuzzy_255_stats a b
  unfold Compare.fuzzy_percent
  dsimp only
  rw [hD, hP]
  simp [hp]

/-- Witness for C3 at differently-sized concrete images and threshold 5. -/
theorem C3_fuzzy_percent_always_match_witness :
    (0 : ℚ) ≤ 5 ∧
      (Compare.fuzzy_percent (Image.blank 2 2) (Image.blank 3 3) 5).match_ = true :=
  ⟨by norm_num,
   C3_fuzzy_percent_always_match (Image.blank 2 2) (Image.blank 3 3) 5 (by norm_num)⟩

/-- Claim C1: on images of equal non-zero dimensions, `fuzzy_percent` is
exactly `fuzzy` at tolerance 255 with `match` overridden to
`difference_percent ≤ max_diff_percent` (the tolerance-255 run filters no
pixel, so the message-rewriting branch of the source never fires and all
statistics are passed through unchanged). -/
theorem C1_fuzzy_percent_is_override (a b : Image) (p : ℚ) (hw : a.width = b.width)
    (hh : a.height = b.height) (hnz : 0 < a.width * a.height) :
    Compare.fuzzy_percent a b p =
      { Compare.fuzzy a b 255 with
        match_ := decide ((Compare.fuzzy a b 255).difference_percent ≤ p) } := by
  obtain ⟨hD, -⟩ := fuzzy_255_stats a b
  unfold Compare.fuzzy_percent
  dsimp only
  rw [hD]
  simp

/-- Witness for C1 at two 1×1 images and threshold 1/2. -/
theorem C1_fuzzy_percent_is_override_witness :
    0 < (Image.blank 1 1).width * (Image.blank 1 1).height ∧
      Compare.fuzzy_percent (Image.blank 1 1) (Image.blank 1 1) (1 / 2) =
        { Compare.fuzzy (Image.blank 1 1) (Image.blank 1 1) 255 with
          match_ := decide ((Compare.fuzzy (Image.blank 1 1) (Image.blank 1 1)
            255).difference_percent ≤ 1 / 2) } :=
  ⟨by decide,
   C1_fuzzy_percent_is_override (Image.blank 1 1) (Image.blank 1 1) (1 / 2)
     rfl rfl (by decide)⟩

/-- The four channel differences of a pixel pair, indexed 0..3 = R,G,B,A —
the claim's "examined channel-diff values" of one pixel position. -/
def channel_diff_at (p1 p2 : Pixel) (i : Nat) : Nat :=
  if i = 0 then Compare.channel_diff p1.r p2.r
  else if i = 1 then Compare.channel_diff p1.g p2.g
  else if i = 2 then Compare.channel_diff p1.b p2.b
  else Compare.channel_diff p1.a p2.a

theorem sup_channel_diff_at (p1 p2 : Pixel) :
    (Finset.range 4).sup (channel_diff_at p1 p2) = Compare.pixel_max_diff p1 p2 := by
  have h4 : (Finset.range 4) = ({0, 1, 2, 3} : Finset ℕ) := by decide
  rw [h4, Finset.sup_insert, Finset.sup_insert, Finset.sup_insert, Finset.sup_singleton]
  simp only [channel_diff_at]
  norm_num [Compare.pixel_max_diff]

theorem sum_channel_diff_at (p1 p2 : Pixel) :
    ∑ i ∈ Finset.range 4, channel_diff_at p1 p2 i = Compare.pixel_sum_diff p1 p2 := by
  have h4 : (Finset.range 4) = ({0, 1, 2, 3} : Finset ℕ) := by decide
  rw [h4]
  rw [Finset.sum_insert (by decide), Finset.sum_insert (by decide),
    Finset.sum_insert (by decide), Finset.sum_singleton]
  simp only [channel_diff_at]
  norm_num [Compare.pixel_sum_diff]
  omega

/-- Claim C2: on non-empty images of equal dimensions and tolerance `t ≥ 0`,
`fuzzy` computes per pixel the four independent channel differences, counts a
pixel as different iff their maximum strictly exceeds `t`, and aggregates:
`total_pixels = width*height`, `difference_percent = 100*different/total`,
`max_channel_diff` and `avg_channel_diff` over all examined channel-diff
values of all pixels (not only the differing ones), and
`match = (different_pixels = 0)` independent of the percent metric. -/
theorem C2_fuzzy_fields (a b : Image) (t : Int) (hw : a.width = b.width)
    (hh : a.height = b.height) (hnz : 0 < a.width * a.height) (ht : 0 ≤ t) :
    (Compare.fuzzy a b t).different_pixels =
        ((coords a.width a.height).filter fun c =>
          t < ((((Finset.range 4).sup fun i =>
            channel_diff_at (a.pix c.1 c.2) (b.pix c.1 c.2) i) : ℕ) : Int)).card
    ∧ (Compare.fuzzy a b t).total_pixels = a.width * a.height
    ∧ (Compare.fuzzy a b t).difference_percent =
        100 * ((Compare.fuzzy a b t).different_pixels : ℚ) / ((a.width * a.height : ℕ) : ℚ)
    ∧ (Compare.fuzzy a b t).max_channel_diff =
        (((((coords a.width a.height) ×ˢ Finset.range 4).sup fun ci =>
          channel_diff_at (a.pix ci.1.1 ci.1.2) (b.pix ci.1.1 ci.1.2) ci.2) : ℕ) : ℚ)
    ∧ (Compare.fuzzy a b t).avg_channel_diff =
        (∑ ci ∈ (coords a.width a.height) ×ˢ Finset.range 4,
          ((channel_diff_at (a.pix ci.1.1 ci.1.2) (b.pix ci.1.1 ci.1.2) ci.2 : ℕ) : ℚ)) /
          ((4 : ℚ) * ((a.width * a.height : ℕ) : ℚ))
    ∧ ((Compare.fuzzy a b t).match_ = true ↔ (Compare.fuzzy a b t).different_pixels = 0) := by
  rw [fuzzy_of_valid a b t hw hh hnz]
  dsimp only
  refine ⟨?_, rfl, rfl, ?_, ?_, ?_⟩
  · congr 1
    apply Finset.filter_congr
    intro c _
    rw [sup_channel_diff_at]
  · rw [Finset.sup_product_left]
    congr 1
    apply Finset.sup_congr rfl
    intro c _
    exact (sup_channel_diff_at (a.pix c.1 c.2) (b.pix c.1 c.2)).symm
  · rw [Finset.sum_product]
    have hs : ∀ c : ℕ × ℕ, (∑ i ∈ Finset.range 4,
        ((channel_diff_at (a.pix c.1 c.2) (b.pix c.1 c.2) i : ℕ) : ℚ)) =
        ((Compare.pixel_sum_diff (a.pix c.1 c.2) (b.pix c.1 c.2) : ℕ) : ℚ) := by
      intro c
      rw [← Nat.cast_sum, sum_channel_diff_at]
    simp only [hs]
    rw [← Nat.cast_sum]
    push_cast
    ring
  · simp

/-- Witness for C2 at two 1×1 images and tolerance 0. -/
theorem C2_fuzzy_fields_witness :
    0 < (Image.blank 1 1).width * (Image.blank 1 1).height ∧ (0 : Int) ≤ 0 ∧
      ((Compare.fuzzy (Image.blank 1 1) (Image.blank 1 1) 0).total_pixels =
          (Image.blank 1 1).width * (Image.blank 1 1).height ∧
        ((Compare.fuzzy (Image.blank 1 1) (Image.blank 1 1) 0).match_ = true ↔
          (Compare.fuzzy (Image.blank 1 1) (Image.blank 1 1) 0).different_pixels = 0)) :=
  ⟨by decide, le_refl 0,
   (C2_fuzzy_fields (Image.blank 1 1) (Image.blank 1 1) 0 rfl rfl (by decide)
      (le_refl 0)).2.1,
   (C2_fuzzy_fields (Image.blank 1 1) (Image.blank 1 1) 0 rfl rfl (by decide)
      (le_refl 0)).2.2.2.2.2⟩

/-- Claim C10: for fixed images of equal non-zero dimensions,
`different_pixels` is non-increasing in the tolerance: raising the threshold
can only shrink the set of pixels whose max channel difference exceeds it. -/
theorem C10_different_pixels_antitone (a b : Image) (t1 t2 : Int)
    (hw : a.width = b.width) (hh : a.height = b.height)
    (hnz : 0 < a.width * a.height) (h0 : 0 ≤ t1) (h12 : t1 ≤ t2) :
    (Compare.fuzzy a b t2).different_pixels ≤ (Compare.fuzzy a b t1).different_pixels := by
  rw [fuzzy_of_valid a b t1 hw hh hnz, fuzzy_of_valid a b t2 hw hh hnz]
  apply Finset.card_le_card
  intro c hc
  simp only [Finset.mem_filter] at hc ⊢
  exact ⟨hc.1, lt_of_le_of_lt h12 hc.2⟩

/-- Witness for C10 at two 1×1 images and tolerances 0 ≤ 5. -/
theorem C10_different_pixels_antitone_witness :
    (0 : Int) ≤ 0 ∧ (0 : Int) ≤ 5 ∧
      (Compare.fuzzy (Image.blank 1 1) (Image.blank 1 1) 5).different_pixels ≤
        (Compare.fuzzy (Image.blank 1 1) (Image.blank 1 1) 0).different_pixels :=
  ⟨le_refl 0, by norm_num,
   C10_different_pixels_antitone (Image.blank 1 1) (Image.blank 1 1) 0 5
     rfl rfl (by decide) (le_refl 0) (by norm_num)⟩

/-- A 4×4 image filled with opaque red, as built by
`Image img(4, 4); img.fill(255, 0, 0, 255)`. -/
def red4 : Image := { width := 4, height := 4, pix := fun _ _ => ⟨255, 0, 0, 255⟩ }

/-- The per-coordinate rule of claim C6, as the spec words it (refinement
target): opaque green where only `img2` has the pixel, opaque blue where only
`img1` has it, opaque black where neither has it, a red-tinted highlight
where the max channel difference exceeds the tolerance, and the `img1` pixel
with halved channels and alpha 255 elsewhere. -/
def diff_pixel_claim (img1 img2 : Image) (tolerance : Int) (x y : Nat) : Pixel :=
  if ¬(x < img1.width ∧ y < img1.height) ∧ (x < img2.width ∧ y < img2.height) then
    ⟨0, 255, 0, 255⟩
  else if ¬(x < img2.width ∧ y < img2.height) ∧ (x < img1.width ∧ y < img1.height) then
    ⟨0, 0, 255, 255⟩
  else if ¬(x < img1.width ∧ y < img1.height) ∧ ¬(x < img2.width ∧ y < img2.height) then
    ⟨0, 0, 0, 255⟩
  else
    let p1 := img1.pix x y
    let p2 := img2.pix x y
    let max_diff := Compare.pixel_max_diff p1 p2
    if tolerance < (max_diff : Int) then
      let intensity := min 255 (max_diff * 2)
      ⟨255, u8 (255 - intensity), u8 (255 - intensity), 255⟩
    else
      ⟨u8 ((p1.r : Nat) / 2), u8 ((p1.g : Nat) / 2), u8 ((p1.b : Nat) / 2), 255⟩

/-- Counterexample to claim C6 as stated: for a 0×5 and a 0×3 image the
source hits the `width == 0 || height == 0` early return and produces the
default-constructed 0×0 image, not a canvas of height `max(5, 3) = 5`. -/
theorem C6_generate_diff_counterexample :
    (Compare.generate_diff (Image.blank 0 5) (Image.blank 0 3) 0).height = 0 ∧
      max (Image.blank 0 5).height (Image.blank 0 3).height = 5 ∧ (0 : ℕ) ≠ 5 := by
  refine ⟨?_, by decide, by decide⟩
  rfl

/-- Claim C6, amended: when both canvas dimensions are positive (for a zero
`max` width or height the source instead returns the empty 0×0 image),
`generate_diff` produces the `(max width, max height)` canvas whose every
pixel follows the claimed rule; in particular two identical 4×4 opaque-red
images at tolerance 0 give a diff whose every pixel is `(127, 0, 0, 255)`. -/
theorem C6_generate_diff_amended (img1 img2 : Image) (t : Int) (x y : Nat)
    (hw : 0 < max img1.width img2.width) (hh : 0 < max img1.height img2.height) :
    ((Compare.generate_diff img1 img2 t).width = max img1.width img2.width
      ∧ (Compare.generate_diff img1 img2 t).height = max img1.height img2.height
      ∧ (Compare.generate_diff img1 img2 t).pix x y = diff_pixel_claim img1 img2 t x y)
    ∧ (∀ i < 4, ∀ j < 4,
        (Compare.generate_diff red4 red4 0).pix i j = ⟨127, 0, 0, 255⟩) := by
  refine ⟨?_, by decide⟩
  unfold Compare.generate_diff
  rw [if_neg (by omega)]
  refine ⟨rfl, rfl, ?_⟩
  by_cases h1 : x < img1.width ∧ y < img1.height <;>
    by_cases h2 : x < img2.width ∧ y < img2.height <;>
      simp [diff_pixel_claim, h1, h2]

/-- Witness for the amended C6 at the 4×4 red pair and coordinate (1, 2). -/
theorem C6_generate_diff_amended_witness :
    0 < max red4.width red4.width ∧ 0 < max red4.height red4.height ∧
      (Compare.generate_diff red4 red4 0).pix 1 2 = diff_pixel_claim red4 red4 0 1 2 :=
  ⟨by decide, by decide,
   ((C6_generate_diff_amended red4 red4 0 1 2 (by decide) (by decide)).1).2.2⟩

/-! ### Claim C4: channel extraction and the rescale denominator -/

/-- The channel extraction exactly as claim C4 words it (refinement target):
locate the lowest set bit (`shift`) and the population count (`bits`), shift
the masked bits down, rescale linearly from the native range
`[0, 2^bits - 1]` to `[0, 255]` rounding to the nearest integer, and clamp to
`[0, 255]`; a zero mask yields 0. -/
def extract_channel_claim (pixel mask : Nat) : Nat :=
  if mask = 0 then 0
  else
    let shift := find_shift mask
    let bits := popcount (mask >>> shift)
    if bits = 0 then 0
    else
      let value := (pixel &&& mask) >>> shift
      min 255 (round ((value : ℚ) * 255 / ((2 ^ bits - 1 : ℕ) : ℚ))).toNat

/-- Rounding a non-negative ratio to the nearest integer, in floor division:
`⌊a/m + 1/2⌋ = (2a + m) / (2m)`. -/
theorem round_toNat_div (a m : Nat) (hm : 0 < m) :
    (round ((a : ℚ) / (m : ℚ))).toNat = (2 * a + m) / (2 * m) := by
  rw [round_eq, Int.floor_toNat]
  have key : (a : ℚ) / (m : ℚ) + 1 / 2 = ((2 * a + m : ℕ) : ℚ) / ((2 * m : ℕ) : ℚ) := by
    have hm' : (0 : ℚ) < (m : ℚ) := by exact_mod_cast hm
    push_cast
    field_simp
    ring
  rw [key, Nat.floor_div_nat, Nat.floor_natCast]

/-- `extract_channel_claim` rewritten into executable natural-number
arithmetic. -/
theorem extract_channel_claim_eval (pixel mask : Nat) :
    extract_channel_claim pixel mask =
      if mask = 0 then 0
      else if popcount (mask >>> find_shift mask) = 0 then 0
      else
        min 255 ((2 * (((pixel &&& mask) >>> find_shift mask) * 255) +
            (2 ^ popcount (mask >>> find_shift mask) - 1)) /
          (2 * (2 ^ popcount (mask >>> find_shift mask) - 1))) := by
  unfold extract_channel_claim
  dsimp only
  split_ifs with h1 h2
  · rfl
  · rfl
  · have hpos : 0 < 2 ^ popcount (mask >>> find_shift mask) - 1 := by
      have : (2 : ℕ) ^ 1 ≤ 2 ^ popcount (mask >>> find_shift mask) :=
        Nat.pow_le_pow_right (by norm_num) (by omega)
      omega
    have hcast : ((((pixel &&& mask) >>> find_shift mask : ℕ)) : ℚ) * 255 =
        (((((pixel &&& mask) >>> find_shift mask) * 255 : ℕ)) : ℚ) := by push_cast; ring
    rw [hcast, round_toNat_div _ _ hpos]

/-- Counterexample to claim C4 as stated: for the non-contiguous mask
`0b101` and pixel `0b100`, the source rescales by the shifted mask (5), while
the claim's formula rescales by `2^popcount - 1 = 3`; the outputs differ
(204 vs 255). -/
theorem C4_extract_channel_counterexample :
    extract_channel 4 5 = 204 ∧ extract_channel_claim 4 5 = 255 ∧
      extract_channel 4 5 ≠ extract_channel_claim 4 5 := by
  rw [extract_channel_eval, extract_channel_claim_eval]
  refine ⟨by decide, by decide, ?_⟩
  decide

/-- A left shift by `s` followed by a right shift by `s` is the identity. -/
theorem shiftLeft_shiftRight_self (m s : Nat) : (m <<< s) >>> s = m := by
  rw [Nat.shiftLeft_eq, Nat.shiftRight_eq_div_pow]
  exact Nat.mul_div_cancel m (Nat.pos_pow_of_pos s (by norm_num))

/-- The shift-finding loop lands exactly on the lowest set bit. -/
theorem find_shift_go_eq (mask target : Nat) (ht : target < 64)
    (hbit : (mask >>> target) % 2 = 1) :
    ∀ fuel s, s ≤ target → target - s < fuel →
      (∀ j, s ≤ j → j < target → (mask >>> j) % 2 = 0) →
      find_shift_go mask fuel s = target := by
  intro fuel
  induction fuel with
  | zero => omega
  | succ fuel ih =>
    intro s hst hfuel hlow
    unfold find_shift_go
    by_cases hs : s = target
    · subst hs
      rw [if_neg (by simp [hbit])]
    · have hlt : s < target := lt_of_le_of_ne hst hs
      rw [if_pos ⟨hlow s le_rfl hlt, by omega⟩]
      exact ih (s + 1) (by omega) (by omega) (fun j hj1 hj2 => hlow j (by omega) hj2)

/-- On a contiguous mask `(2^bits - 1) <<< shift` the shift-finding loop of
`extract_channel` returns `shift`. -/
theorem find_shift_contiguous (shift bits : Nat) (hb : 0 < bits) (hs : shift < 64) :
    find_shift ((2 ^ bits - 1) <<< shift) = shift := by
  apply find_shift_go_eq _ _ hs _ 64 0 (Nat.zero_le _) (by omega)
  · intro j hj0 hjlt
    rw [Nat.shiftLeft_eq, Nat.shiftRight_eq_div_pow]
    rw [Nat.mul_div_assoc _ (pow_dvd_pow 2 (le_of_lt hjlt)),
      Nat.pow_div (le_of_lt hjlt) (by norm_num)]
    have h2 : 2 ∣ 2 ^ (shift - j) := dvd_pow_self 2 (by omega)
    obtain ⟨k, hk⟩ := h2
    rw [hk]
    have hmul : (2 ^ bits - 1) * (2 * k) = 2 * ((2 ^ bits - 1) * k) := by ring
    rw [hmul, Nat.mul_mod_right]
  · rw [shiftLeft_shiftRight_self]
    have h2 : 2 ∣ 2 ^ bits := dvd_pow_self 2 (by omega)
    have h1 : 1 ≤ 2 ^ bits := Nat.one_le_two_pow
    omega

/-- The popcount loop of `extract_channel` on an all-ones value `2^b - 1`
returns `b`. -/
theorem popcount_go_two_pow_sub_one (b : Nat) :
    ∀ fuel, b ≤ fuel → popcount_go fuel (2 ^ b - 1) = b := by
  induction b with
  | zero =>
    intro fuel _
    cases fuel
    · rfl
    · simp [popcount_go]
  | succ b ih =>
    intro fuel hbf
    obtain ⟨fuel', rfl⟩ : ∃ f, fuel = f + 1 := ⟨fuel - 1, by omega⟩
    unfold popcount_go
    have h2 : (2 : ℕ) ^ 1 ≤ 2 ^ (b + 1) := Nat.pow_le_pow_right (by norm_num) (by omega)
    rw [if_neg (by omega)]
    have hmod : (2 ^ (b + 1) - 1) % 2 = 1 := by
      have hdvd : 2 ∣ 2 ^ (b + 1) := dvd_pow_self 2 (by omega)
      omega
    have hdiv : (2 ^ (b + 1) - 1) / 2 = 2 ^ b - 1 := by
      have : (2 : ℕ) ^ (b + 1) = 2 * 2 ^ b := by ring
      omega
    rw [hmod, hdiv, ih fuel' (by omega)]
    omega

/-- `popcount (2^b - 1) = b` for any `b` that fits the 64-bit loop. -/
theorem popcount_two_pow_sub_one (b : Nat) (hb : b ≤ 64) :
    popcount (2 ^ b - 1) = b :=
  popcount_go_two_pow_sub_one b 64 hb

/-- Claim C4, amended: the source rescales by the shifted mask itself, which
for a CONTIGUOUS mask `(2^bits - 1) <<< shift` (every real X11 channel mask)
coincides with the claim's `2^bits - 1`, so the claimed formula holds there;
a zero mask yields 0; and the 565 red example extracts to exactly
`(255, 0, 0)` on the three masks.  (On non-contiguous masks the claimed
denominator is wrong — see the counterexample.) -/
theorem C4_extract_channel_amended (pixel shift bits : Nat) (hb : 0 < bits)
    (hsb : shift + bits ≤ 64) :
    extract_channel pixel ((2 ^ bits - 1) <<< shift) =
        extract_channel_claim pixel ((2 ^ bits - 1) <<< shift)
      ∧ extract_channel pixel 0 = 0
      ∧ (extract_channel 0xF800 0xF800 = 255 ∧ extract_channel 0xF800 0x07E0 = 0
          ∧ extract_channel 0xF800 0x001F = 0) := by
  refine ⟨?_, by simp [extract_channel], ?_, ?_, ?_⟩
  · have h2 : (2 : ℕ) ^ 1 ≤ 2 ^ bits := Nat.pow_le_pow_right (by norm_num) (by omega)
    have hfs : find_shift ((2 ^ bits - 1) <<< shift) = shift :=
      find_shift_contiguous shift bits hb (by omega)
    have hm0 : (2 ^ bits - 1) <<< shift ≠ 0 := by
      rw [Nat.shiftLeft_eq]
      have hp : 0 < 2 ^ shift := Nat.pos_pow_of_pos shift (by norm_num)
      exact Nat.mul_ne_zero (by omega) (by omega)
    rw [extract_channel_eval, extract_channel_claim_eval, hfs,
      shiftLeft_shiftRight_self, popcount_two_pow_sub_one bits (by omega)]
    rw [if_neg hm0, if_neg hm0, if_neg (by omega : ¬bits = 0),
      if_neg (by omega : ¬bits = 0), if_pos (by omega : 0 < 2 ^ bits - 1)]
  · rw [extract_channel_eval]
    decide
  · rw [extract_channel_eval]
    decide
  · rw [extract_channel_eval]
    decide

/-- Witness for the amended C4 on the contiguous 5-bit mask at shift 11
(the 565 red mask) and pixel `0xF800`. -/
theorem C4_extract_channel_amended_witness :
    0 < 5 ∧ 11 + 5 ≤ 64 ∧
      extract_channel 0xF800 ((2 ^ 5 - 1) <<< 11) =
        extract_channel_claim 0xF800 ((2 ^ 5 - 1) <<< 11) :=
  ⟨by norm_num, by norm_num,
   (C4_extract_channel_amended 0xF800 11 5 (by norm_num) (by norm_num)).1⟩

/-! ### Claims C5, C8, C9 -/

/-- The descriptor of normalizer case A: 32 bpp, depth 24 (no alpha),
`red_mask = 0x00FF0000`, `green_mask = 0x0000FF00`, `blue_mask = 0x000000FF`,
with every pixel packed as `0x00FF0000`. -/
def descA : XImageDesc :=
  { width := 1, height := 1, bits_per_pixel := 32, depth := 24,
    red_mask := 0xFF0000, green_mask := 0xFF00, blue_mask := 0xFF,
    getPixel := fun _ _ => 0xFF0000 }

/-- `u8` of a byte value is that byte. -/
theorem u8_val (v : Fin 256) : u8 (v : Nat) = v := by
  apply Fin.ext
  simp [u8, Nat.mod_eq_of_lt v.isLt]

/-- Claim C5: the normalizer's alpha handling — a drawable depth of at most
24 yields opaque alpha 255 on every output pixel; when an alpha mask exists
and the extracted alpha value is 0, alpha is overridden to 255; and the
concrete case-A pixel `0x00FF0000` normalizes to RGBA `(255, 0, 0, 255)`. -/
theorem C5_alpha_handling (x : XImageDesc) (px py : Nat) :
    (x.depth ≤ 24 → ((Capture.ximage_to_image x).pix px py).a = 255)
    ∧ (Capture.alpha_mask_of x ≠ 0 →
        extract_channel (x.getPixel px py) (Capture.alpha_mask_of x) = 0 →
        ((Capture.ximage_to_image x).pix px py).a = 255)
    ∧ (Capture.ximage_to_image descA).pix 0 0 = ⟨255, 0, 0, 255⟩ := by
  refine ⟨?_, ?_, ?_⟩
  · intro hd
    have hmask : Capture.alpha_mask_of x = 0 := by
      unfold Capture.alpha_mask_of
      rw [if_neg (by omega)]
    unfold Capture.ximage_to_image
    dsimp only
    rw [hmask]
    simp [u8]
  · intro hmask hz
    unfold Capture.ximage_to_image
    dsimp only
    rw [if_pos hmask, hz, if_pos ⟨hmask, rfl⟩]
    simp [u8]
  · unfold Capture.ximage_to_image
    dsimp only
    simp only [extract_channel_eval]
    decide

/-- Witness for C5 at the case-A descriptor (depth 24 ≤ 24 forces alpha
255). -/
theorem C5_alpha_handling_witness :
    descA.depth ≤ 24 ∧ ((Capture.ximage_to_image descA).pix 0 0).a = 255 :=
  ⟨by decide, (C5_alpha_handling descA 0 0).1 (by decide)⟩

/-- Claim C8: saving a canonical image and loading the result reproduces the
width, the height, and every pixel's exact RGBA quadruple — the repository
hands the raw RGBA8 rows to the (lossless) PNG codec unchanged and reads
them back unchanged, with no recompression and no colorspace or gamma
transform. -/
theorem C8_png_round_trip (img : Image) (x y : Nat) :
    (Image.load_png (Image.save_png img)).width = img.width
    ∧ (Image.load_png (Image.save_png img)).height = img.height
    ∧ (Image.load_png (Image.save_png img)).pix x y = img.pix x y := by
  refine ⟨rfl, rfl, ?_⟩
  unfold Image.load_png Image.save_png
  dsimp only
  have h0 : 4 * x % 4 = 0 := by omega
  have h1 : (4 * x + 1) % 4 = 1 := by omega
  have h2 : (4 * x + 2) % 4 = 2 := by omega
  have h3 : (4 * x + 3) % 4 = 3 := by omega
  have d0 : 4 * x / 4 = x := by omega
  have d1 : (4 * x + 1) / 4 = x := by omega
  have d2 : (4 * x + 2) / 4 = x := by omega
  have d3 : (4 * x + 3) / 4 = x := by omega
  rw [h0, h1, h2, h3, d0, d1, d2, d3]
  norm_num
  rw [u8_val, u8_val, u8_val, u8_val]

/-- Claim C9 counterexample: the persistence interface cannot distinguish
the two failure kinds — `load_png` returns the same bare `false` (no image)
on an unreadable path and on a stream libpng rejects, so no
`IOError`/`FormatError` distinction is observable. -/
theorem C9_failures_indistinguishable_counterexample :
    Image.load_png_run FileContent.absent = Image.load_png_run FileContent.corrupt ∧
      Image.load_png_run FileContent.absent = none := ⟨rfl, rfl⟩

/-- Claim C9, amended: `save_png` and `load_png` do fail on an unwritable
path, an unreadable path, and a corrupt or unsupported encoding — but both
failure kinds surface as the same boolean `false` (no result); they are not
distinguishable outcomes, and no `IOError`/`FormatError` taxonomy exists in
the interface. -/
theorem C9_failures_amended :
    Image.load_png_run FileContent.absent = none
    ∧ Image.load_png_run FileContent.corrupt = none
    ∧ (∀ img : Image, Image.save_png_run false img = none)
    ∧ (∀ f : PNGData, Image.load_png_run (FileContent.png f) = some (Image.load_png f))
    ∧ Image.load_png_run FileContent.absent = Image.load_png_run FileContent.corrupt :=
  ⟨rfl, rfl, fun _ => rfl, fun _ => rfl, rfl⟩

end X11Bench
